import Mathlib

/-!
Lean model of the core logic of the tiged repository: the tar archive
extractor (src/tar.ts), the specifier parser and cache maintenance
(src/utils.ts) and the clone control flow (src/tiged.ts), together with
theorems about path safety, name-resolution precedence, cache eviction,
offline behaviour and parsing.

Strings are modelled as Lean String values; the JavaScript string
operations used by the source (slice, split, startsWith, trim and the
small fixed regular expressions) are reimplemented on the character
lists underneath.  All byte-level concerns (gzip, the 512-byte block
layout, octal field parsing) sit below this model: a tar archive is
modelled as the list of parsed header records in archive order, which is
exactly what the block-walking loop of parseHeaderAt produces.
-/

namespace Tiged

/-- JS truthiness of a string-or-null value: null and the empty string
are falsy, every other string is truthy. -/
def truthy : Option String → Bool
  | none => false
  | some s => s ≠ ""

/-- Association-list lookup, modelling reading a property of a plain JS
object (keys are unique in a JS object). -/
def lookupA (l : List (String × String)) (k : String) : Option String :=
  (l.find? (fun kv => kv.1 = k)).map (fun kv => kv.2)

/-- Property assignment on a plain JS object: overwrite the value when
the key exists, otherwise add the key. -/
def upsert (l : List (String × String)) (k v : String) : List (String × String) :=
  if l.any (fun kv => kv.1 = k) then
    l.map (fun kv => if kv.1 = k then (k, v) else kv)
  else l ++ [(k, v)]

/-- Model of the JS startsWith test on strings. -/
def strPfx (p s : String) : Bool := p.data.isPrefixOf s.data

/-- Model of the JS endsWith test on strings. -/
def strSfx (p s : String) : Bool := p.data.isSuffixOf s.data

/-- Model of the JS slice(n) operation taking the suffix from character
index n (the sources only slice ASCII data, where code units coincide
with characters). -/
def dropChars (s : String) (n : Nat) : String := String.mk (s.data.drop n)

/-- ASCII whitespace as matched by the JS \s class and by trim (the
Unicode-only whitespace code points are outside the model). -/
def isJsWs (c : Char) : Bool :=
  c = ' ' || c = '\t' || c = '\n' || c = '\r' || c = '\x0b' || c = '\x0c'

/-- Model of the JS trim() operation. -/
def jsTrim (s : String) : String :=
  String.mk (((s.data.dropWhile isJsWs).reverse.dropWhile isJsWs).reverse)

/-- Model of decodeCString from src/tar.ts: keep the bytes before the
first NUL. -/
def decodeC (s : String) : String := String.mk (s.data.takeWhile (fun c => c ≠ '\x00'))

/-! ## POSIX path model (node:path, posix flavour)

The extractor works exclusively with posix path semantics: it calls
path.posix.normalize, path.posix.isAbsolute, path.posix.basename and
path.resolve with '/' as separator.  The functions below reimplement
the corresponding node algorithms. -/

/-- Model of the JS split on the '/' character: "".split gives [""],
"/".split gives ["", ""]. -/
def splitOnSlash : List Char → List (List Char)
  | [] => [[]]
  | c :: cs =>
    let r := splitOnSlash cs
    if c = '/' then [] :: r
    else
      match r with
      | h :: t => (c :: h) :: t
      | [] => [[c]]

/-- Path split into segments, as strings. -/
def splitSlashes (s : String) : List String := (splitOnSlash s.data).map String.mk

/-- Join of path segments with '/'. -/
def joinSegs (l : List String) : String := String.intercalate "/" l

/-- Segment resolution of node normalizeString: drop empty and "."
segments, let ".." cancel the previous segment, and keep leading ".."
segments only for relative paths (allowAboveRoot). -/
def normSegs (allowAboveRoot : Bool) (acc : List String) : List String → List String
  | [] => acc.reverse
  | seg :: rest =>
    if seg = "" || seg = "." then normSegs allowAboveRoot acc rest
    else if seg = ".." then
      match acc with
      | top :: accTail =>
        if top = ".." then
          normSegs allowAboveRoot (if allowAboveRoot then ".." :: acc else acc) rest
        else normSegs allowAboveRoot accTail rest
      | [] => normSegs allowAboveRoot (if allowAboveRoot then [".."] else []) rest
    else normSegs allowAboveRoot (seg :: acc) rest

/-- Model of path.posix.normalize. -/
def posixNormalize (s : String) : String :=
  if s = "" then "."
  else
    let isAbs := strPfx "/" s
    let trailingSep := strSfx "/" s
    let p := joinSegs (normSegs (!isAbs) [] (splitSlashes s))
    let p := if p = "" && !isAbs then "." else p
    let p := if p ≠ "" && trailingSep then p ++ "/" else p
    if isAbs then "/" ++ p else p

/-- Model of path.posix.basename: the last nonempty path segment. -/
def posixBasename (p : String) : String :=
  let cs := p.data.reverse.dropWhile (fun c => c = '/')
  String.mk ((cs.takeWhile (fun c => c ≠ '/')).reverse)

/-- Model of path.resolve(base, ...parts) for an absolute base path:
join with '/' and resolve "." and ".." without escaping the root.  The
extractor only ever calls resolve with the already resolved destination
as base. -/
def posixResolveAbs (base : String) (parts : List String) : String :=
  let joined := String.intercalate "/" (base :: parts)
  "/" ++ joinSegs (normSegs false [] (splitSlashes joined))

/-- Drop every leading '/' character, the replace of the /^\/+/ pattern. -/
def stripLeadingSlashes (s : String) : String :=
  String.mk (s.data.dropWhile (fun c => c = '/'))

/-- Drop every trailing '/' character, the replace of the /\/+$/ pattern. -/
def stripTrailingSlashes (s : String) : String :=
  String.mk ((s.data.reverse.dropWhile (fun c => c = '/')).reverse)

/-- Drop one leading "./", the replace of the /^\.\// pattern. -/
def stripLeadingDotSlash (s : String) : String :=
  if strPfx "./" s then dropChars s 2 else s

/-- Model of normalizeTarPath from src/tar.ts: backslashes become
slashes, leading slashes and one leading "./" are removed, then the
result is posix-normalized. -/
def normalizeTarPath (input : String) : String :=
  let replaced := String.mk (input.data.map (fun c => if c = '\\' then '/' else c))
  let trimmed := stripLeadingDotSlash (stripLeadingSlashes replaced)
  posixNormalize trimmed

/-- Model of splitRootPrefix from src/tar.ts: normalize, drop trailing
slashes, then strip the detected archive root segment. -/
def splitRootPfx (fullPosixPath : String) (rootPfx : String) : String :=
  let p := stripTrailingSlashes (normalizeTarPath fullPosixPath)
  if rootPfx = "" then p
  else if p = rootPfx then ""
  else if strPfx (rootPfx ++ "/") p then dropChars p (rootPfx.length + 1)
  else p

/-- Model of ensureSafeOutPath from src/tar.ts: normalize the relative
output path, reject empty, absolute and ".."-containing paths, resolve
it against the destination and reject any result that equals the
destination root or does not stay strictly below it. -/
def ensureSafeOutPath (destResolved : String) (relativePosixPath : String) : Option String :=
  let rel := stripLeadingSlashes (normalizeTarPath relativePosixPath)
  if rel = "" then none
  else if strPfx "/" rel then none
  else
    let parts := (splitSlashes rel).filter (fun s => s ≠ "")
    if parts = [] then none
    else if parts.any (fun p => p = "..") then none
    else
      let outPath := posixResolveAbs destResolved parts
      if outPath = destResolved then none
      else if strPfx (destResolved ++ "/") outPath then some outPath
      else none

/-! ## Tar record model (src/tar.ts)

A record is one parsed 512-byte header block together with its decoded
payload.  parseHeaderAt decodes the name, ustar magic, ustar path
field, mode, size and type flag; zero blocks are skipped by the walking
loop and therefore do not appear in the record list. -/

/-- Classification of a record, from parseHeaderAt. -/
inductive TarType
  | file
  | directory
  | other
deriving DecidableEq, Repr

/-- One parsed tar header record with its decoded data payload. -/
structure TarRecord where
  typeChar : Char
  rawName : String
  rawPfx : String
  magic : String
  mode : Nat
  data : String
deriving DecidableEq, Repr

/-- Header name composition from parseHeaderAt: when the magic starts
with "ustar" and the ustar path field is nonempty, the full name is the
path field, a slash and the raw name. -/
def headerName (r : TarRecord) : String :=
  if strPfx "ustar" r.magic && r.rawPfx ≠ "" then r.rawPfx ++ "/" ++ r.rawName
  else r.rawName

/-- Type flag classification from parseHeaderAt. -/
def headerType (r : TarRecord) : TarType :=
  if r.typeChar = '5' then TarType.directory
  else if r.typeChar = '0' || r.typeChar = '\x00' then TarType.file
  else TarType.other

/-- Records consumed as pending metadata by the loops rather than as
real entries: global PAX, per-entry PAX and GNU long-name records. -/
def isMeta (r : TarRecord) : Bool :=
  r.typeChar = 'g' || r.typeChar = 'x' || r.typeChar = 'L'

/-! ## PAX header parsing (parsePax in src/tar.ts) -/

/-- Index of the first occurrence of a character in a character list. -/
def idxOf? (c : Char) : List Char → Option Nat
  | [] => none
  | x :: xs => if x = c then some 0 else (idxOf? c xs).map (fun n => n + 1)

/-- Model of the JS slice(i, j) operation on a character list. -/
def sliceL (l : List Char) (i j : Nat) : List Char := (l.drop i).take (j - i)

/-- Leading decimal digits of a character list, if any. -/
def leadDigits (l : List Char) : Option Nat :=
  let ds := l.takeWhile Char.isDigit
  if ds = [] then none
  else some (ds.foldl (fun n c => n * 10 + (c.toNat - '0'.toNat)) 0)

/-- Model of the JS parseInt(s, 10): skip leading whitespace, accept an
optional sign, then read leading decimal digits. -/
def jsParseInt10 (l : List Char) : Option Int :=
  let l := l.dropWhile isJsWs
  match l with
  | '-' :: rest => (leadDigits rest).map (fun n => -(n : Int))
  | '+' :: rest => (leadDigits rest).map (fun n => (n : Int))
  | _ => (leadDigits l).map (fun n => (n : Int))

/-- Drop one trailing newline, the replace of the /\n$/ pattern. -/
def stripOneTrailingNL (l : List Char) : List Char :=
  match l.reverse with
  | '\n' :: rest => rest.reverse
  | _ => l

/-- Fuelled loop of parsePax.  Each iteration advances the cursor by
the declared record length (at least one), so a fuel of one more than
the text length never runs out.  The key is taken with the absolute
space index, exactly as the source does. -/
def paxLoop (text : List Char) : Nat → Nat → List (String × String) → List (String × String)
  | 0, _, acc => acc
  | Nat.succ fuel, i, acc =>
    if i < text.length then
      match (idxOf? ' ' (text.drop i)).map (fun n => n + i) with
      | none => acc
      | some spaceIdx =>
        let lenStr := sliceL text i spaceIdx
        match jsParseInt10 lenStr with
        | none => acc
        | some len =>
          if len ≤ 0 then acc
          else
            let lenN := len.toNat
            let record := sliceL text i (i + lenN)
            let acc2 :=
              match idxOf? '=' record with
              | none => acc
              | some eqIdx =>
                let key := sliceL record (spaceIdx + 1) eqIdx
                let value := stripOneTrailingNL (record.drop (eqIdx + 1))
                if key ≠ [] then upsert acc (String.mk key) (String.mk value) else acc
            paxLoop text fuel (i + lenN) acc2
    else acc

/-- Model of parsePax from src/tar.ts. -/
def parsePax (data : String) : List (String × String) :=
  paxLoop data.data (data.data.length + 1) 0 []

/-! ## Pending metadata state and entry-name resolution -/

/-- Pending state carried between records: the parsed fields of the
most recent per-entry PAX record and the most recent GNU long name,
each until consumed by a real entry. -/
structure Pending where
  pax : Option (List (String × String))
  longName : Option String
deriving DecidableEq, Repr

/-- The path field of the pending PAX record, when one is pending. -/
def paxPathOf (pend : Pending) : Option String :=
  match pend.pax with
  | some fields => lookupA fields "path"
  | none => none

/-- Pending-state update for one record, shared verbatim by the scan
pass of scanTarGz and the extraction pass of untarToDir: a 'g' record
is parsed but not stored, an 'x' record stores its parsed fields, an
'L' record stores its NUL-truncated trimmed data, and a real entry
clears both. -/
def stepPend (pend : Pending) (r : TarRecord) : Pending :=
  if r.typeChar = 'g' || r.typeChar = 'x' then
    { pend with pax := if r.typeChar = 'x' then some (parsePax r.data) else pend.pax }
  else if r.typeChar = 'L' then
    { pend with longName := some (jsTrim (decodeC r.data)) }
  else ⟨none, none⟩

/-- Pending state after a list of records. -/
def pendAfter (pend : Pending) (rs : List TarRecord) : Pending :=
  rs.foldl stepPend pend

/-- Effective-name resolution applied to a real entry, in the order of
the source: start from the composed header name, let a truthy pending
long name override it, then let a truthy pending PAX path override
both. -/
def effName (pend : Pending) (r : TarRecord) : String :=
  let n0 := headerName r
  let n1 :=
    match pend.longName with
    | some l => if l ≠ "" then l else n0
    | none => n0
  match paxPathOf pend with
  | some p => if p ≠ "" then p else n1
  | none => n1

/-- The sequence of real entries with their resolved effective names,
as both loops of src/tar.ts compute them. -/
def resolvedEntries (pend : Pending) : List TarRecord → List (String × TarRecord)
  | [] => []
  | r :: rs =>
    if isMeta r then resolvedEntries (stepPend pend r) rs
    else (effName pend r, r) :: resolvedEntries ⟨none, none⟩ rs

/-! ## Classification pass (scanTarGz in src/tar.ts) -/

/-- Mutable state of the scan loop of scanTarGz. -/
structure ScanState where
  rootPfx : String
  subdirRel : Option String
  isSubDirFile : Bool
  pend : Pending
deriving DecidableEq, Repr

/-- One iteration of the scan loop of scanTarGz: metadata records only
update the pending state; a real entry resolves its name, establishes
the archive root from the first file or directory entry (skipping "."
and the PAX sentinel name), recomputes the subdirectory path relative
to that root, and marks the target as a single file when some file
relative path of some file entry equals it. -/
def scanStep (subdirNorm : Option String) (st : ScanState) (r : TarRecord) : ScanState :=
  if isMeta r then { st with pend := stepPend st.pend r }
  else
    let nameNorm := normalizeTarPath (effName st.pend r)
    let ty := headerType r
    let (rootPfx, subdirRel) :=
      if st.rootPfx = "" && (ty = TarType.file || ty = TarType.directory) then
        let first := (splitSlashes nameNorm).headD ""
        if first ≠ "" && first ≠ "." && first ≠ "pax_global_header" then
          (first,
            if truthy subdirNorm then some (splitRootPfx (subdirNorm.getD "") first)
            else none)
        else (st.rootPfx, st.subdirRel)
      else (st.rootPfx, st.subdirRel)
    let isSub :=
      if truthy subdirRel && ty = TarType.file then
        if splitRootPfx nameNorm rootPfx = subdirRel.getD "" then true else st.isSubDirFile
      else st.isSubDirFile
    ⟨rootPfx, subdirRel, isSub, ⟨none, none⟩⟩

/-- Model of scanTarGz: fold the scan step over the records, starting
with no root, the requested subdirectory and empty pending state. -/
def scanRecords (subdirNorm : Option String) (records : List TarRecord) : ScanState :=
  records.foldl (scanStep subdirNorm) ⟨"", subdirNorm, false, ⟨none, none⟩⟩

/-! ## Extraction pass (untarToDir in src/tar.ts) -/

/-- Kind of filesystem output an entry produces. -/
inductive EKind
  | dirMade
  | fileWritten
deriving DecidableEq, Repr

/-- One performed output: the pushed relative path, the resolved
absolute output path, and whether a directory was created or a file
written. -/
structure ExtractAction where
  outRel : String
  outPath : String
  kind : EKind
deriving DecidableEq, Repr

/-- The only error untarToDir itself raises. -/
inductive TarErr
  | badTarPath (effectiveName : String)
deriving DecidableEq, Repr

/-- Model of the shouldInclude closure of untarToDir. -/
def shouldInclude (subdirRel : Option String) (isSubDirFile : Bool) (relPath : String) : Bool :=
  if !truthy subdirRel then true
  else if isSubDirFile then relPath = subdirRel.getD ""
  else relPath = subdirRel.getD "" || strPfx (subdirRel.getD "" ++ "/") relPath

/-- Decision of the extraction loop body for one real entry. -/
inductive EntryDecision
  | skip
  | act (a : ExtractAction)
  | fail (e : TarErr)
deriving DecidableEq, Repr

/-- The body of the extraction loop of untarToDir for a real entry:
resolve the effective name, strip the archive root, filter against the
requested subdirectory, compute the output-relative path (full path for
whole-repository extraction, the base name for a single-file target,
the suffix after the subdirectory otherwise), skip empty results, then
check path safety and dispatch on the entry type. -/
def decideEntry (destResolved : String) (subdirNorm subdirRel : Option String)
    (isSubDirFile : Bool) (rootPfx : String) (pend : Pending) (r : TarRecord) :
    EntryDecision :=
  let effectiveName := effName pend r
  let nameNorm := normalizeTarPath effectiveName
  let rel := splitRootPfx nameNorm rootPfx
  let relTrimmed := stripTrailingSlashes rel
  if !shouldInclude subdirRel isSubDirFile relTrimmed then EntryDecision.skip
  else
    let outRelRes : Option String :=
      if !truthy subdirNorm then some relTrimmed
      else if isSubDirFile then
        if !truthy subdirRel || relTrimmed ≠ subdirRel.getD "" then none
        else some (posixBasename (subdirRel.getD ""))
      else
        if !truthy subdirRel then none
        else if relTrimmed = subdirRel.getD "" then none
        else if !strPfx (subdirRel.getD "" ++ "/") relTrimmed then none
        else some (dropChars relTrimmed ((subdirRel.getD "").length + 1))
    match outRelRes with
    | none => EntryDecision.skip
    | some outRel =>
      if outRel = "" || outRel = "." then EntryDecision.skip
      else
        match ensureSafeOutPath destResolved outRel with
        | none => EntryDecision.fail (TarErr.badTarPath effectiveName)
        | some outPath =>
          match headerType r with
          | TarType.directory => EntryDecision.act ⟨outRel, outPath, EKind.dirMade⟩
          | TarType.file => EntryDecision.act ⟨outRel, outPath, EKind.fileWritten⟩
          | TarType.other => EntryDecision.skip

/-- The extraction loop of untarToDir: metadata records update the
pending state, skipped entries leave no trace, an unsafe output path
aborts the whole extraction with BAD_TAR_PATH (nothing is written for
that entry or any later one), and included entries append an action. -/
def untarGo (dR : String) (sN sR : Option String) (isF : Bool) (rp : String) :
    Pending → List TarRecord → List ExtractAction → List ExtractAction × Option TarErr
  | _, [], acc => (acc.reverse, none)
  | pend, r :: rs, acc =>
    if isMeta r then untarGo dR sN sR isF rp (stepPend pend r) rs acc
    else
      match decideEntry dR sN sR isF rp pend r with
      | EntryDecision.skip => untarGo dR sN sR isF rp ⟨none, none⟩ rs acc
      | EntryDecision.act a => untarGo dR sN sR isF rp ⟨none, none⟩ rs (a :: acc)
      | EntryDecision.fail e => (acc.reverse, some e)

/-- Normalization of the requested subdirectory argument at the top of
untarToDir: a truthy subdir is backslash-normalized, posix-normalized
and stripped of trailing slashes. -/
def normSubdir (subdir : Option String) : Option String :=
  if truthy subdir then some (stripTrailingSlashes (normalizeTarPath (subdir.getD "")))
  else none

/-- Model of untarToDir: normalize the requested subdirectory, run the
classification pass, then run the extraction pass.  The destination is
taken already resolved (the source resolves it with path.resolve
first).  The result is the list of performed outputs in order together
with the error that aborted the run, if any. -/
def untarModel (records : List TarRecord) (destResolved : String) (subdir : Option String) :
    List ExtractAction × Option TarErr :=
  let subdirNorm := normSubdir subdir
  let scan := scanRecords subdirNorm records
  untarGo destResolved subdirNorm scan.subdirRel scan.isSubDirFile scan.rootPfx
    ⟨none, none⟩ records []

/-! ## Error codes and effect events (src/utils.ts, src/tiged.ts)

The filesystem and network side effects of the clone path are modelled
as an ordered event trace; each event marks the call site of the
corresponding fs or network operation in the source. -/

/-- The machine-readable error codes of TigedError used by the modelled
code paths. -/
inductive ErrCode
  | BAD_SRC
  | BAD_REF
  | MISSING_REF
  | CACHE_MISS
  | COULD_NOT_FETCH
  | COULD_NOT_DOWNLOAD
  | NO_FILES
  | DEST_NOT_EMPTY
deriving DecidableEq, Repr

/-- Effect events of the tar clone path, in program order: the network
ref listing (fetchRefs), the disposable shallow fetch (getOldHash), the
tarball stat, the tarball download, directory creation, the access-log
write, the map.json write, the eviction unlink, the extraction call and
the tarball removal of cache-disabled runs. -/
inductive CloneEv
  | fetchRefsCall
  | oldHashCall
  | statTarball
  | downloadCall
  | mkdirDest
  | mkdirCacheDir
  | writeAccessLog
  | writeMapJson
  | unlinkTarball (hash : String)
  | extractCall
  | removeTarball
deriving DecidableEq, Repr

/-! ## Cache index maintenance (updateCache in src/utils.ts) -/

/-- Result of updateCache: the ordered effect events and the updated
ref-to-hash map. -/
structure CacheOut where
  events : List CloneEv
  newCached : List (String × String)
deriving Repr

/-- Model of updateCache from src/utils.ts: the access log entry for
the ref is always rewritten first; when the cached hash for the ref
already equals the new hash nothing else happens; otherwise the old
tarball of the old hash is unlinked when it is truthy and no other ref still
maps to it, and the map is rewritten with the new hash.  The unlink is
recorded as an event; the source swallows any unlink failure. -/
def updateCacheModel (ref hash : String) (cached : List (String × String)) : CacheOut :=
  if lookupA cached ref = some hash then ⟨[CloneEv.writeAccessLog], cached⟩
  else
    let del : Option String :=
      match lookupA cached ref with
      | some oldHash =>
        if oldHash ≠ "" then
          if cached.any (fun kv => kv.1 ≠ ref && kv.2 = oldHash) then none
          else some oldHash
        else none
      | none => none
    let delEvs : List CloneEv :=
      match del with
      | some oldHash => [CloneEv.unlinkTarball oldHash]
      | none => []
    ⟨[CloneEv.writeAccessLog] ++ delEvs ++ [CloneEv.writeMapJson], upsert cached ref hash⟩

/-! ## Ref selection and hash resolution (src/tiged.ts) -/

/-- One line of the parsed git ls-remote output, as produced by
fetchRefs in src/utils.ts. -/
structure RefItem where
  type : String
  name : String
  hash : String
deriving DecidableEq, Repr

/-- Test of the /^[0-9a-f]\x7b40\x7d$/ pattern: a full 40-character
lowercase hex commit hash. -/
def isHex40 (s : String) : Bool :=
  s.length = 40 &&
    s.data.all (fun c => ('0' ≤ c && c ≤ '9') || ('a' ≤ c && c ≤ 'f'))

/-- Model of Tiged.selectRef: first scan the listing for an exact
ref-name match; only when none exists and the selector has at least 8
characters, scan for a listed hash of which the selector is a prefix;
otherwise resolve nothing. -/
def selectRefModel (refs : List RefItem) (selector : String) : Option String :=
  match refs.find? (fun r => r.name = selector) with
  | some r => some r.hash
  | none =>
    if selector.length < 8 then none
    else
      match refs.find? (fun r => strPfx selector r.hash) with
      | some r => some r.hash
      | none => none

/-- Environment of one tar-mode clone: the option flags, the requested
ref, the parsed cache index, and oracles for the filesystem and the
network (whether the tarball file exists, the ref listing, the result
of the historical shallow-fetch lookup, whether the download succeeds,
and how many files the extraction yields). -/
structure CloneEnv where
  offlineMode : Bool
  disableCache : Bool
  repoRef : String
  cached : List (String × String)
  tarballExists : Bool
  fetchRefsOk : Bool
  refsListing : List RefItem
  oldHashResult : String
  downloadOk : Bool
  extractedCount : Nat
deriving Repr

/-- Model of Tiged.getHash: list the remote refs (a failure surfaces as
COULD_NOT_FETCH); for HEAD take the hash of the HEAD entry (empty when
absent); otherwise use selectRef, falling back for a falsy result first
to accepting a full 40-hex ref directly and then to the historical
shallow-fetch lookup. -/
def getHashModel (env : CloneEnv) : List CloneEv × Except ErrCode String :=
  if !env.fetchRefsOk then ([CloneEv.fetchRefsCall], Except.error ErrCode.COULD_NOT_FETCH)
  else if env.repoRef = "HEAD" then
    ([CloneEv.fetchRefsCall],
      Except.ok (((env.refsListing.find? (fun r => r.type = "HEAD")).map
        (fun r => r.hash)).getD ""))
  else
    let sel := selectRefModel env.refsListing env.repoRef
    if truthy sel then ([CloneEv.fetchRefsCall], Except.ok (sel.getD ""))
    else if isHex40 env.repoRef then ([CloneEv.fetchRefsCall], Except.ok env.repoRef)
    else ([CloneEv.fetchRefsCall, CloneEv.oldHashCall], Except.ok env.oldHashResult)

/-- Offline hash resolution of cloneWithTar: a full 40-hex ref is used
directly, otherwise the cache index is consulted; no network. -/
def offlineHashOf (env : CloneEnv) : Option String :=
  if isHex40 env.repoRef then some env.repoRef else lookupA env.cached env.repoRef

/-- Hash-resolution phase of cloneWithTar: offline resolution never
touches the network; online resolution delegates to getHash. -/
def resolvePhase (env : CloneEnv) : List CloneEv × Except ErrCode (Option String) :=
  if env.offlineMode then ([], Except.ok (offlineHashOf env))
  else
    let p := getHashModel env
    (p.1, p.2.map some)

/-- Tarball-acquisition phase of cloneWithTar.  Offline: combining the
two flags is rejected with BAD_REF before the tarball stat; otherwise
the tarball must exist or the run fails with CACHE_MISS.  Online: with
caching disabled the stat is skipped and a fresh download always runs;
otherwise an existing tarball is reused and a missing one downloaded. -/
def acquirePhase (env : CloneEnv) : List CloneEv × Option ErrCode :=
  if env.offlineMode then
    if env.disableCache then ([], some ErrCode.BAD_REF)
    else if env.tarballExists then ([CloneEv.statTarball], none)
    else ([CloneEv.statTarball], some ErrCode.CACHE_MISS)
  else
    if env.disableCache then
      ([CloneEv.mkdirCacheDir, CloneEv.downloadCall],
        if env.downloadOk then none else some ErrCode.COULD_NOT_DOWNLOAD)
    else if env.tarballExists then ([CloneEv.statTarball], none)
    else ([CloneEv.statTarball, CloneEv.mkdirCacheDir, CloneEv.downloadCall],
      if env.downloadOk then none else some ErrCode.COULD_NOT_DOWNLOAD)

/-- Outcome of one modelled cloneWithTar run: the ordered effect trace,
the result, and the commit hash in use after resolution succeeded. -/
structure CloneOut where
  events : List CloneEv
  result : Except ErrCode Unit
  usedHash : Option String
deriving Repr

/-- Model of Tiged.cloneWithTar: create the destination, resolve the
hash (offline from the cache index only, online via getHash), fail with
MISSING_REF on a falsy hash, acquire the tarball, run updateCache
unless caching is disabled, extract, fail with NO_FILES on an empty
extraction, and remove the tarball afterwards when caching is
disabled. -/
def cloneWithTarModel (env : CloneEnv) : CloneOut :=
  let ev0 : List CloneEv := [CloneEv.mkdirDest]
  match resolvePhase env with
  | (hEvs, Except.error e) => ⟨ev0 ++ hEvs, Except.error e, none⟩
  | (hEvs, Except.ok hashOpt) =>
    if !truthy hashOpt then ⟨ev0 ++ hEvs, Except.error ErrCode.MISSING_REF, none⟩
    else
      let hash := hashOpt.getD ""
      let acq := acquirePhase env
      match acq.2 with
      | some e => ⟨ev0 ++ hEvs ++ acq.1, Except.error e, some hash⟩
      | none =>
        let cacheEvs :=
          if env.disableCache then []
          else (updateCacheModel env.repoRef hash env.cached).events
        let evs := ev0 ++ hEvs ++ acq.1 ++ cacheEvs ++ [CloneEv.mkdirDest, CloneEv.extractCall]
        if env.extractedCount = 0 then ⟨evs, Except.error ErrCode.NO_FILES, some hash⟩
        else if env.disableCache then ⟨evs ++ [CloneEv.removeTarball], Except.ok (), some hash⟩
        else ⟨evs, Except.ok (), some hash⟩

/-! ## Destination emptiness check (Tiged.checkDirIsEmpty) -/

/-- Destructive filesystem effect of checkDirIsEmpty. -/
inductive DirEv
  | rmDest
deriving DecidableEq, Repr

/-- Model of Tiged.checkDirIsEmpty, which Tiged.clone runs before any
other clone step.  The listing oracle is none when readdir throws (a
missing destination), which the source swallows; a non-empty listing
either aborts with DEST_NOT_EMPTY or, when force is set, recursively
removes the whole destination directory before continuing. -/
def checkDirIsEmptyModel (listing : Option (List String)) (force : Bool) :
    List DirEv × Except ErrCode Unit :=
  match listing with
  | none => ([], Except.ok ())
  | some files =>
    if files.length > 0 then
      if force then ([DirEv.rmDest], Except.ok ())
      else ([], Except.error ErrCode.DEST_NOT_EMPTY)
    else ([], Except.ok ())

/-! ## Source-specifier parsing (extractRepositoryInfo in src/utils.ts)

The accepted grammar is the anchored pattern

  (?:(?:https:\/\/)?([^:/]+\.[^:/]+)\/|git@([^:/]+)[:/]|([^/]+):)?
  ([^\/\s]+)\/([^\/\s#]+)(?:((?:\/[^\/\s#]+)+))?(?:\/)?(?:#(.+))?

which is anchored at the start only.  The functions below implement
its backtracking match deterministically: the host alternatives are
tried in regex order (each with its internal greedy choices in
backtracking order) and the first one after which the rest of the
pattern matches wins; the trailing optional groups can always match
empty, so no backtracking propagates past the user and name tokens. -/

/-- Character class [^:/]. -/
def notSlashColon (c : Char) : Bool := c ≠ ':' && c ≠ '/'

/-- Character class [^\/\s] of the user token. -/
def userChar (c : Char) : Bool := c ≠ '/' && !isJsWs c

/-- Character class [^\/\s#] of the name and subpath tokens. -/
def nameChar (c : Char) : Bool := c ≠ '/' && !isJsWs c && c ≠ '#'

/-- Whether [^:/]+\.[^:/]+ can cover the run: some '.' occurs at an
interior position, leaving a nonempty piece on both sides. -/
def hasInternalDot (m : List Char) : Bool :=
  match m with
  | [] => false
  | _ :: rest => rest.dropLast.contains '.'

/-- The https host alternative (?:https:\/\/)?([^:/]+\.[^:/]+)\/ at a
position (the optional https literal is handled by the caller): the
greedy runs of [^:/]+ jointly cover the maximal run without ':' or
'/', which must contain an interior dot and be followed by '/'. -/
def alt1At (cs : List Char) : Option (String × List Char) :=
  let m := cs.takeWhile notSlashColon
  let rest := cs.dropWhile notSlashColon
  if m ≠ [] && hasInternalDot m then
    match rest with
    | '/' :: rest2 => some (String.mk m, rest2)
    | _ => none
  else none

/-- The ssh host alternative git@([^:/]+)[:/]. -/
def alt2At (cs : List Char) : Option (String × List Char) :=
  if cs.take 4 = ['g', 'i', 't', '@'] then
    let m := (cs.drop 4).takeWhile notSlashColon
    let rest := (cs.drop 4).dropWhile notSlashColon
    if m ≠ [] then
      match rest with
      | ':' :: r2 => some (String.mk m, r2)
      | '/' :: r2 => some (String.mk m, r2)
      | _ => none
    else none
  else none

/-- The shorthand host alternative ([^/]+): with its backtracking
choices: the greedy [^/]+ run is cut at each ':' inside the maximal
slash-free run, longest capture first. -/
def alt3Cands (cs : List Char) : List (String × List Char) :=
  let p := cs.takeWhile (fun c => c ≠ '/')
  (List.range p.length).reverse.filterMap (fun k =>
    if 1 ≤ k && p.get? k = some ':' then some (String.mk (cs.take k), cs.drop (k + 1))
    else none)

/-- All host-prefix candidates in regex backtracking order: the https
alternative with and then without the literal https prefix, the ssh
alternative, the shorthand alternatives, and finally the empty
prefix. -/
def hostCands (cs : List Char) : List (Option String × List Char) :=
  let a1h :=
    if cs.take 8 = "https://".data then (alt1At (cs.drop 8)).toList else []
  let withSite := (a1h ++ (alt1At cs).toList ++ (alt2At cs).toList ++ alt3Cands cs).map
    (fun sc => (some sc.1, sc.2))
  withSite ++ [(none, cs)]

/-- The subpath group ((?:\/[^\/\s#]+)+): greedily consume repetitions
of a slash followed by a nonempty name-character run.  Each iteration
consumes at least two characters, so the input length is enough fuel. -/
def subPathFuel : Nat → List Char → List Char × List Char
  | 0, cs => ([], cs)
  | Nat.succ fuel, cs =>
    match cs with
    | c :: rest =>
      if c = '/' then
        let seg := rest.takeWhile nameChar
        let r := rest.dropWhile nameChar
        if seg = [] then ([], cs)
        else
          let (more, rest2) := subPathFuel fuel r
          ('/' :: (seg ++ more), rest2)
      else ([], cs)
    | [] => ([], cs)

/-- Greedy match of the subpath group. -/
def subPathRun (cs : List Char) : List Char × List Char := subPathFuel cs.length cs

/-- Captures of the part of the pattern after the host prefix. -/
structure RestMatch where
  user : String
  name : String
  sub : Option String
  ref : Option String
deriving DecidableEq, Repr

/-- The optional slash group (?:\/)?: consume one '/' when present. -/
def slashSkip (r4 : List Char) : List Char :=
  match r4 with
  | '/' :: t => t
  | r4 => r4

/-- The ref group (?:#(.+))?: a '#' followed by a nonempty greedy run
of characters; the dot of (.+) does not match line terminators. -/
def refCapture (r5 : List Char) : Option String :=
  match r5 with
  | '#' :: t =>
    let body := t.takeWhile (fun c => c ≠ '\n' && c ≠ '\r')
    if body = [] then none else some (String.mk body)
  | _ => none

/-- Match of ([^\/\s]+)\/([^\/\s#]+)(?:((?:\/[^\/\s#]+)+))?(?:\/)?
(?:#(.+))? at a position.  The pattern is not end-anchored, so the
optional groups simply fail to participate when they cannot match, and
trailing input is left unconsumed. -/
def restMatchAt (cs : List Char) : Option RestMatch :=
  let u := cs.takeWhile userChar
  let r1 := cs.dropWhile userChar
  if u = [] then none
  else
    match r1 with
    | '/' :: r2 =>
      let n := r2.takeWhile nameChar
      let r3 := r2.dropWhile nameChar
      if n = [] then none
      else
        let sp := subPathRun r3
        some ⟨String.mk u, String.mk n,
          (if sp.1 = [] then none else some (String.mk sp.1)),
          refCapture (slashSkip sp.2)⟩
    | _ => none

/-- Captures of a successful match of the whole pattern. -/
structure SrcMatch where
  site : Option String
  user : String
  name : String
  sub : Option String
  ref : Option String
deriving DecidableEq, Repr

/-- Try the host candidates in order; the first after which the rest of
the pattern matches yields the overall match. -/
def tryCands : List (Option String × List Char) → Option SrcMatch
  | [] => none
  | (site, rest) :: more =>
    match restMatchAt rest with
    | some rm => some ⟨site, rm.user, rm.name, rm.sub, rm.ref⟩
    | none => tryCands more

/-- Anchored match of the specifier pattern against a source string. -/
def matchSrc (src : String) : Option SrcMatch := tryCands (hostCands src.data)

/-- The recognized top-level-domain suffix of a site token, the match
of the /\.([a-z]\x7b2,\x7d)$/ pattern: the trailing run of at least two
lowercase letters together with the dot right before it. -/
def tldOf (site : String) : Option String :=
  let rev := site.data.reverse
  let run := rev.takeWhile (fun c => 'a' ≤ c && c ≤ 'z')
  if run.length ≥ 2 && (rev.drop run.length).head? = some '.' then
    some (String.mk ('.' :: run.reverse))
  else none

/-- The static per-host domain suffix table of src/utils.ts. -/
def supportedTbl : List (String × String) :=
  [("github", ".com"), ("gitlab", ".com"), ("bitbucket", ".com"),
    ("git.sr.ht", ".ht"), ("huggingface", ".co"), ("codeberg", ".org")]

/-- Strip one trailing ".git", the replace of the /\.git$/ pattern. -/
def stripGitSuffix (s : String) : String :=
  if strSfx ".git" s then String.mk (s.data.take (s.data.length - 4)) else s

/-- The parsed repository descriptor. -/
structure Repo where
  site : String
  user : String
  name : String
  ref : String
  url : String
  ssh : String
  subDirectory : String
deriving DecidableEq, Repr

/-- Model of extractRepositoryInfo from src/utils.ts: match the
specifier pattern (failure is BAD_SRC), default the site to github.com,
split a recognized top-level domain off the site token, strip one
trailing ".git" from the name, default a missing ref capture to HEAD,
rebuild the canonical domain from the matched suffix or the static
table, and derive the https and ssh addresses.  The subgroup flag of
the source is accepted and, as in the source, unused. -/
def extractRepositoryInfo (src : String) (_subgroup : Bool) (subDirectory : String) :
    Except ErrCode Repo :=
  match matchSrc src with
  | none => Except.error ErrCode.BAD_SRC
  | some m =>
    let site := m.site.getD "github.com"
    let tld := tldOf site
    let siteName :=
      match tld with
      | some t => String.mk (site.data.take (site.data.length - t.length))
      | none => site
    let name := stripGitSuffix m.name
    let ref := m.ref.getD "HEAD"
    let domain := siteName ++
      (match tld with
        | some t => t
        | none => (lookupA supportedTbl siteName).getD ((lookupA supportedTbl site).getD ""))
    let url := "https://" ++ domain ++ "/" ++ m.user ++ "/" ++ name
    let ssh := "git@" ++ domain ++ ":" ++ m.user ++ "/" ++ name
    Except.ok ⟨siteName, m.user, name, ref, url, ssh, m.sub.getD subDirectory⟩

end Tiged
namespace Tiged

/-- Safety of ensureSafeOutPath: a returned path differs from the destination root and extends it. -/
theorem ensureSafe_some_safe (d rel o : String)
    (h : ensureSafeOutPath d rel = some o) :
    o ≠ d ∧ strPfx (d ++ "/") o = true := by
  simp only [ensureSafeOutPath] at h
  split_ifs at h
  all_goals simp_all

/-- Every action the extraction loop decides to perform carries a safe output path. -/
theorem decideEntry_act_safe (dR : String) (sN sR : Option String) (isF : Bool)
    (rp : String) (pend : Pending) (r : TarRecord) (a : ExtractAction)
    (h : decideEntry dR sN sR isF rp pend r = EntryDecision.act a) :
    a.outPath ≠ dR ∧ strPfx (dR ++ "/") a.outPath = true := by
  simp only [decideEntry] at h
  repeat' split at h
  all_goals first
    | (injection h with h2; subst h2; exact ensureSafe_some_safe _ _ _ (by assumption))
    | injection h

/-- Invariant of the extraction loop: all accumulated and produced actions carry safe output paths. -/
theorem untarGo_safe (dR : String) (sN sR : Option String) (isF : Bool) (rp : String)
    (rs : List TarRecord) :
    ∀ (pend : Pending) (acc : List ExtractAction),
      (∀ a ∈ acc, a.outPath ≠ dR ∧ strPfx (dR ++ "/") a.outPath = true) →
      ∀ a ∈ (untarGo dR sN sR isF rp pend rs acc).1,
        a.outPath ≠ dR ∧ strPfx (dR ++ "/") a.outPath = true := by
  induction rs with
  | nil =>
    intro pend acc hacc a ha
    simp only [untarGo] at ha
    exact hacc a (List.mem_reverse.1 ha)
  | cons r rs ih =>
    intro pend acc hacc a ha
    simp only [untarGo] at ha
    split at ha
    · exact ih _ _ hacc a ha
    · split at ha
      · exact ih _ _ hacc a ha
      · refine ih _ _ (fun b hb => ?_) a ha
        rcases List.mem_cons.1 hb with rfl | hb2
        · exact decideEntry_act_safe dR sN sR isF rp pend r b (by assumption)
        · exact hacc b hb2
      · exact hacc a (List.mem_reverse.1 ha)

/-- A failing safety check aborts the extraction at that entry: the result holds only the previously performed actions and the BAD_TAR_PATH error. -/
theorem untarGo_aborts (dR : String) (sN sR : Option String) (isF : Bool) (rp : String)
    (pend : Pending) (r : TarRecord) (rs : List TarRecord) (acc : List ExtractAction)
    (e : TarErr) (hm : isMeta r = false)
    (hf : decideEntry dR sN sR isF rp pend r = EntryDecision.fail e) :
    untarGo dR sN sR isF rp pend (r :: rs) acc = (acc.reverse, some e) := by
  simp only [untarGo, hm, Bool.false_eq_true, if_false, hf]

end Tiged
namespace Tiged

/-- C1 (amended). Every output the extractor performs lands strictly inside the destination root: each performed action resolves to a path different from the destination root and prefixed by it; the only error untarToDir raises is BAD_TAR_PATH; and when an included entry fails the safety check, extraction aborts at once with BAD_TAR_PATH, writing nothing for that entry or any later one.  Safety is enforced on the computed output path after normalization, not on the raw entry name. -/
theorem c1_path_safety (records : List TarRecord) (destResolved : String)
    (subdir : Option String) :
    (∀ a ∈ (untarModel records destResolved subdir).1,
        a.outPath ≠ destResolved ∧ strPfx (destResolved ++ "/") a.outPath = true) ∧
    (∀ e, (untarModel records destResolved subdir).2 = some e →
        ∃ n, e = TarErr.badTarPath n) ∧
    (∀ (pend : Pending) (r : TarRecord) (rs : List TarRecord)
        (acc : List ExtractAction) (e : TarErr),
        isMeta r = false →
        decideEntry destResolved (normSubdir subdir)
            (scanRecords (normSubdir subdir) records).subdirRel
            (scanRecords (normSubdir subdir) records).isSubDirFile
            (scanRecords (normSubdir subdir) records).rootPfx pend r =
          EntryDecision.fail e →
        untarGo destResolved (normSubdir subdir)
            (scanRecords (normSubdir subdir) records).subdirRel
            (scanRecords (normSubdir subdir) records).isSubDirFile
            (scanRecords (normSubdir subdir) records).rootPfx pend (r :: rs) acc =
          (acc.reverse, some e)) := by
  refine ⟨?_, ?_, ?_⟩
  · intro a ha
    exact untarGo_safe destResolved (normSubdir subdir) _ _ _ records ⟨none, none⟩ []
      (by intro b hb; cases hb) a ha
  · intro e _
    cases e with
    | badTarPath n => exact ⟨n, rfl⟩
  · intro pend r rs acc e hm hf
    exact untarGo_aborts _ _ _ _ _ pend r rs acc e hm hf

/-- C1 counterexample. An entry whose raw name contains a dot-dot segment that normalizes away inside the archive is extracted without any BAD_TAR_PATH error, contradicting C1 as stated, which demands failure for every entry name containing dot-dot segments. -/
theorem c1_counterexample :
    (splitSlashes "pkg/a/../b").contains ".." = true ∧
    untarModel [⟨'5', "pkg", "", "", 493, ""⟩, ⟨'0', "pkg/a/../b", "", "", 420, ""⟩]
        "/dest" none =
      ([⟨"b", "/dest/b", EKind.fileWritten⟩], none) :=
  ⟨by decide, by decide⟩

/-- Witness for c1_path_safety at a concrete archive and destination. -/
theorem c1_path_safety_witness :
    ((⟨"x", "/dest/x", EKind.fileWritten⟩ : ExtractAction).outPath ≠ "/dest" ∧
      strPfx ("/dest" ++ "/")
        (⟨"x", "/dest/x", EKind.fileWritten⟩ : ExtractAction).outPath = true) ∧
    untarGo "/dest" (normSubdir none)
        (scanRecords (normSubdir none)
          [⟨'0', "pkg/ok", "", "", 420, ""⟩, ⟨'0', "../evil", "", "", 420, ""⟩]).subdirRel
        (scanRecords (normSubdir none)
          [⟨'0', "pkg/ok", "", "", 420, ""⟩, ⟨'0', "../evil", "", "", 420, ""⟩]).isSubDirFile
        (scanRecords (normSubdir none)
          [⟨'0', "pkg/ok", "", "", 420, ""⟩, ⟨'0', "../evil", "", "", 420, ""⟩]).rootPfx
        ⟨none, none⟩ [⟨'0', "../evil", "", "", 420, ""⟩] [] =
      ([], some (TarErr.badTarPath "../evil")) :=
  ⟨(c1_path_safety [⟨'0', "pkg/x", "", "", 420, ""⟩] "/dest" none).1 _ (by decide),
    by
      have h := (c1_path_safety
        [⟨'0', "pkg/ok", "", "", 420, ""⟩, ⟨'0', "../evil", "", "", 420, ""⟩]
        "/dest" none).2.2 ⟨none, none⟩ ⟨'0', "../evil", "", "", 420, ""⟩ [] []
        (TarErr.badTarPath "../evil") (by decide) (by decide)
      simpa using h⟩

end Tiged
namespace Tiged

/-- C3. Entry-name resolution precedence: a truthy pending PAX path wins over everything; a truthy pending GNU long name wins over the ustar-composed header name; the header name is used when neither is pending.  An L record immediately before an entry installs its NUL-truncated, trimmed data as the pending long name, an x record installs its parsed fields as the pending PAX state, and a real entry consumes and clears both. -/
theorem c3_name_precedence :
    (∀ (pend : Pending) (r : TarRecord) (p : String),
        paxPathOf pend = some p → p ≠ "" → effName pend r = p) ∧
    (∀ (pend : Pending) (r : TarRecord) (l : String),
        (∀ p, paxPathOf pend = some p → p = "") → pend.longName = some l → l ≠ "" →
        effName pend r = l) ∧
    (∀ (pend : Pending) (r : TarRecord),
        (∀ p, paxPathOf pend = some p → p = "") →
        (∀ l, pend.longName = some l → l = "") →
        effName pend r = headerName r) ∧
    (∀ (pend : Pending) (ps : List TarRecord) (lrec : TarRecord),
        lrec.typeChar = 'L' →
        pendAfter pend (ps ++ [lrec]) =
          ⟨(pendAfter pend ps).pax, some (jsTrim (decodeC lrec.data))⟩) ∧
    (∀ (pend : Pending) (ps : List TarRecord) (xrec : TarRecord),
        xrec.typeChar = 'x' →
        pendAfter pend (ps ++ [xrec]) =
          ⟨some (parsePax xrec.data), (pendAfter pend ps).longName⟩) ∧
    (∀ (pend : Pending) (r : TarRecord), isMeta r = false →
        stepPend pend r = ⟨none, none⟩) ∧
    (∀ (pend : Pending) (r : TarRecord) (rs : List TarRecord), isMeta r = false →
        resolvedEntries pend (r :: rs) =
          (effName pend r, r) :: resolvedEntries ⟨none, none⟩ rs) := by
  refine ⟨?_, ?_, ?_, ?_, ?_, ?_, ?_⟩
  · intro pend r p hp hne
    simp [effName, hp, hne]
  · intro pend r l hp hl hne
    rcases hpax : paxPathOf pend with _ | p
    · simp [effName, hpax, hl, hne]
    · have : p = "" := hp p hpax
      subst this
      simp [effName, hpax, hl, hne]
  · intro pend r hp hl
    rcases hpax : paxPathOf pend with _ | p <;>
      rcases hln : pend.longName with _ | l
    · simp [effName, hpax, hln]
    · have : l = "" := hl l hln
      subst this
      simp [effName, hpax, hln]
    · have : p = "" := hp p hpax
      subst this
      simp [effName, hpax, hln]
    · have h1 : p = "" := hp p hpax
      have h2 : l = "" := hl l hln
      subst h1; subst h2
      simp [effName, hpax, hln]
  · intro pend ps lrec hL
    simp [pendAfter, List.foldl_append, stepPend, hL]
  · intro pend ps xrec hx
    simp [pendAfter, List.foldl_append, stepPend, hx]
  · intro pend r hm
    simp only [isMeta, Bool.or_eq_false_iff, decide_eq_false_iff_not] at hm
    simp [stepPend, hm.1.1, hm.1.2, hm.2]
  · intro pend r rs hm
    simp [resolvedEntries, hm]

end Tiged
namespace Tiged

/-- Witness for c3_name_precedence at concrete pending states and records. -/
theorem c3_name_precedence_witness :
    effName ⟨some [("path", "p/q")], some "lname"⟩ (⟨'0', "hdr", "", "", 0, ""⟩ : TarRecord) = "p/q" ∧
    effName ⟨none, some "lname"⟩ (⟨'0', "hdr", "", "", 0, ""⟩ : TarRecord) = "lname" ∧
    effName ⟨none, none⟩ (⟨'0', "hdr", "", "", 0, ""⟩ : TarRecord) =
      headerName ⟨'0', "hdr", "", "", 0, ""⟩ ∧
    pendAfter ⟨none, none⟩ ([] ++ [(⟨'L', "x", "", "", 0, "lname"⟩ : TarRecord)]) =
      ⟨(pendAfter ⟨none, none⟩ []).pax, some (jsTrim (decodeC "lname"))⟩ ∧
    stepPend ⟨some [("path", "p/q")], some "lname"⟩ (⟨'0', "hdr", "", "", 0, ""⟩ : TarRecord) =
      ⟨none, none⟩ ∧
    resolvedEntries ⟨none, some "lname"⟩
        [(⟨'0', "hdr", "", "", 0, ""⟩ : TarRecord)] =
      [(effName ⟨none, some "lname"⟩ ⟨'0', "hdr", "", "", 0, ""⟩, ⟨'0', "hdr", "", "", 0, ""⟩)] := by
  have h := c3_name_precedence
  exact ⟨h.1 _ _ "p/q" (by decide) (by decide),
    h.2.1 _ _ "lname" (by intro p hp; cases hp) rfl (by decide),
    h.2.2.1 _ _ (by intro p hp; cases hp) (by intro l hl; cases hl),
    h.2.2.2.1 ⟨none, none⟩ [] _ rfl,
    h.2.2.2.2.2.1 _ _ (by decide),
    h.2.2.2.2.2.2 _ _ [] (by decide)⟩

end Tiged
namespace Tiged

/-- In single-file-target mode the loop body keeps exactly the entries whose stripped path equals the target, flattened to its base name. -/
theorem decideEntry_singleFile (dR : String) (sN : Option String) (s rp o : String)
    (hsN : truthy sN = true) (hs : s ≠ "")
    (hsafe : ensureSafeOutPath dR (posixBasename s) = some o)
    (hb1 : posixBasename s ≠ "") (hb2 : posixBasename s ≠ ".")
    (pend : Pending) (r : TarRecord) :
    decideEntry dR sN (some s) true rp pend r =
      (if stripTrailingSlashes (splitRootPfx (normalizeTarPath (effName pend r)) rp) = s then
        (match headerType r with
          | TarType.directory => EntryDecision.act ⟨posixBasename s, o, EKind.dirMade⟩
          | TarType.file => EntryDecision.act ⟨posixBasename s, o, EKind.fileWritten⟩
          | TarType.other => EntryDecision.skip)
      else EntryDecision.skip) := by
  have hts : truthy (some s) = true := by simp [truthy, hs]
  by_cases hrel :
      stripTrailingSlashes (splitRootPfx (normalizeTarPath (effName pend r)) rp) = s
  · simp [decideEntry, shouldInclude, hsN, hts, hrel, hsafe, hb1, hb2]
  · simp [decideEntry, shouldInclude, hsN, hts, hrel]

/-- In single-file-target mode the extraction pass is the filter of the resolved entries matching the target, each mapped to the flattened base name. -/
theorem untarGo_singleFile (dR : String) (sN : Option String) (s rp o : String)
    (hsN : truthy sN = true) (hs : s ≠ "")
    (hsafe : ensureSafeOutPath dR (posixBasename s) = some o)
    (hb1 : posixBasename s ≠ "") (hb2 : posixBasename s ≠ ".")
    (rs : List TarRecord) :
    ∀ (pend : Pending) (acc : List ExtractAction),
      untarGo dR sN (some s) true rp pend rs acc =
        (acc.reverse ++ (resolvedEntries pend rs).filterMap (fun nr =>
          if stripTrailingSlashes (splitRootPfx (normalizeTarPath nr.1) rp) = s ∧
              headerType nr.2 ≠ TarType.other then
            some ⟨posixBasename s, o,
              if headerType nr.2 = TarType.directory then EKind.dirMade
              else EKind.fileWritten⟩
          else none), none) := by
  induction rs with
  | nil => intro pend acc; simp [untarGo, resolvedEntries]
  | cons r rs ih =>
    intro pend acc
    by_cases hm : isMeta r
    · rw [untarGo, if_pos hm]
      rw [ih]
      simp [resolvedEntries, hm]
    · rw [untarGo, if_neg (by simp [hm])]
      rw [decideEntry_singleFile dR sN s rp o hsN hs hsafe hb1 hb2 pend r]
      have hres : resolvedEntries pend (r :: rs) =
          (effName pend r, r) :: resolvedEntries ⟨none, none⟩ rs := by
        simp [resolvedEntries, hm]
      by_cases hrel :
          stripTrailingSlashes (splitRootPfx (normalizeTarPath (effName pend r)) rp) = s
      · rw [if_pos hrel]
        cases hty : headerType r
        · dsimp only
          rw [ih]
          simp [hres, hrel, hty]
        · dsimp only
          rw [ih]
          simp [hres, hrel, hty]
        · dsimp only
          rw [ih]
          simp [hres, hrel, hty]
      · rw [if_neg hrel]
        rw [ih]
        simp [hres, hrel]

end Tiged
namespace Tiged

/-- C4 (amended). When the classification pass marks the requested subPath as a single-file target, the extraction output consists of exactly the file and directory entries whose root-stripped path equals subPath, each flattened to the base name of subPath directly in the destination root; entries with any other path produce no output, and no error is raised.  The entry need not be unique in a pathological archive, which amends the claim that exactly one entry is included. -/
theorem c4_single_file_target (records : List TarRecord) (destResolved : String)
    (subdir : Option String) (s o : String)
    (hsub : truthy (normSubdir subdir) = true)
    (hrel : (scanRecords (normSubdir subdir) records).subdirRel = some s)
    (hs : s ≠ "")
    (hfile : (scanRecords (normSubdir subdir) records).isSubDirFile = true)
    (hb1 : posixBasename s ≠ "") (hb2 : posixBasename s ≠ ".")
    (hsafe : ensureSafeOutPath destResolved (posixBasename s) = some o) :
    untarModel records destResolved subdir =
      ((resolvedEntries ⟨none, none⟩ records).filterMap (fun nr =>
        if stripTrailingSlashes (splitRootPfx (normalizeTarPath nr.1)
            (scanRecords (normSubdir subdir) records).rootPfx) = s ∧
            headerType nr.2 ≠ TarType.other then
          some ⟨posixBasename s, o,
            if headerType nr.2 = TarType.directory then EKind.dirMade else EKind.fileWritten⟩
        else none), none) := by
  simp only [untarModel]
  rw [hrel, hfile]
  rw [untarGo_singleFile destResolved (normSubdir subdir) s
    (scanRecords (normSubdir subdir) records).rootPfx o hsub hs hsafe hb1 hb2 records
    ⟨none, none⟩ []]
  simp

/-- C4 counterexample. An archive holding both a directory and a file whose stripped relative path equals the requested subPath produces two outputs, contradicting C4 as stated, which demands that exactly one entry is included and no other archive entry produces output. -/
theorem c4_counterexample :
    untarModel [⟨'5', "pkg/a", "", "", 493, ""⟩, ⟨'0', "pkg/a", "", "", 420, ""⟩]
        "/d" (some "a") =
      ([⟨"a", "/d/a", EKind.dirMade⟩, ⟨"a", "/d/a", EKind.fileWritten⟩], none) ∧
    (untarModel [⟨'5', "pkg/a", "", "", 493, ""⟩, ⟨'0', "pkg/a", "", "", 420, ""⟩]
        "/d" (some "a")).1.length = 2 :=
  ⟨by decide, by decide⟩

/-- Witness for c4_single_file_target at a concrete archive. -/
theorem c4_single_file_target_witness :
    untarModel [⟨'5', "pkg", "", "", 493, ""⟩, ⟨'0', "pkg/a", "", "", 420, ""⟩]
        "/d" (some "a") =
      ([⟨"a", "/d/a", EKind.fileWritten⟩], none) := by
  have h := c4_single_file_target
    [⟨'5', "pkg", "", "", 493, ""⟩, ⟨'0', "pkg/a", "", "", 420, ""⟩]
    "/d" (some "a") "a" "/d/a" (by decide) (by decide) (by decide) (by decide)
    (by decide) (by decide) (by decide)
  rw [h]
  decide

end Tiged
namespace Tiged

/-- C2. Re-resolving a ref to a new hash unlinks the tarball of the old hash if and only if no other cache entry still maps to the old hash; re-resolving to the unchanged hash only rewrites the access log; and the access log is written in every case. -/
theorem c2_cache_eviction (cached : List (String × String)) (ref newHash oldHash : String)
    (h1 : lookupA cached ref = some oldHash) (h2 : oldHash ≠ newHash) (h3 : oldHash ≠ "") :
    (CloneEv.unlinkTarball oldHash ∈ (updateCacheModel ref newHash cached).events ↔
      ∀ kv ∈ cached, kv.1 ≠ ref → kv.2 ≠ oldHash) ∧
    (updateCacheModel ref oldHash cached).events = [CloneEv.writeAccessLog] ∧
    CloneEv.writeAccessLog ∈ (updateCacheModel ref newHash cached).events := by
  have hif : ¬ (some oldHash = some newHash) := by simp [h2]
  by_cases hany : (cached.any fun kv => decide (kv.1 ≠ ref) && decide (kv.2 = oldHash)) = true
  · have hev : (updateCacheModel ref newHash cached).events =
        [CloneEv.writeAccessLog, CloneEv.writeMapJson] := by
      simp only [updateCacheModel, h1]
      rw [if_neg hif, if_pos h3, if_pos hany]
      rfl
    refine ⟨?_, by simp [updateCacheModel, h1], by rw [hev]; simp⟩
    rw [hev]
    constructor
    · intro h
      simp at h
    · intro hall
      exfalso
      rw [List.any_eq_true] at hany
      obtain ⟨kv, hmem, hc⟩ := hany
      rw [Bool.and_eq_true, decide_eq_true_eq, decide_eq_true_eq] at hc
      exact hall kv hmem hc.1 hc.2
  · have hany2 : (cached.any fun kv => decide (kv.1 ≠ ref) && decide (kv.2 = oldHash)) = false :=
      Bool.eq_false_iff.mpr hany
    have hev : (updateCacheModel ref newHash cached).events =
        [CloneEv.writeAccessLog, CloneEv.unlinkTarball oldHash, CloneEv.writeMapJson] := by
      simp only [updateCacheModel, h1]
      rw [if_neg hif, if_pos h3, if_neg hany]
      rfl
    refine ⟨?_, by simp [updateCacheModel, h1], by rw [hev]; simp⟩
    rw [hev]
    constructor
    · intro _ kv hmem hne heq
      rw [List.any_eq_false] at hany2
      have hx := hany2 kv hmem
      rw [Bool.and_eq_true, decide_eq_true_eq, decide_eq_true_eq] at hx
      exact hx ⟨hne, heq⟩
    · intro _
      simp

/-- Witness for c2_cache_eviction: with refs A and B both on hashX, re-resolving A to hashY does not unlink hashX; with A alone on hashX it does. -/
theorem c2_cache_eviction_witness :
    (CloneEv.unlinkTarball "hashX" ∈
        (updateCacheModel "A" "hashY" [("A", "hashX"), ("B", "hashX")]).events ↔
      ∀ kv ∈ [("A", "hashX"), ("B", "hashX")], kv.1 ≠ "A" → kv.2 ≠ "hashX") ∧
    (CloneEv.unlinkTarball "hashX" ∉
        (updateCacheModel "A" "hashY" [("A", "hashX"), ("B", "hashX")]).events) ∧
    (CloneEv.unlinkTarball "hashX" ∈
        (updateCacheModel "A" "hashY" [("A", "hashX")]).events) := by
  refine ⟨(c2_cache_eviction [("A", "hashX"), ("B", "hashX")] "A" "hashY" "hashX"
      (by decide) (by decide) (by decide)).1, by decide, ?_⟩
  have h := (c2_cache_eviction [("A", "hashX")] "A" "hashY" "hashX"
    (by decide) (by decide) (by decide)).1
  exact h.2 (by decide)

end Tiged
namespace Tiged

/-- C7. Online ref selection order for a non-HEAD ref over a listing of nonempty hashes: an exact ref-name match is taken first; a hash-prefix match is attempted only when no exact match exists and the ref has at least 8 characters; a full 40-hex ref is accepted directly when both searches fail; and the historical shallow-fetch lookup runs only as a last resort. -/
theorem c7_ref_selection_order (env : CloneEnv)
    (hok : env.fetchRefsOk = true) (hhead : env.repoRef ≠ "HEAD")
    (hne : ∀ r ∈ env.refsListing, r.hash ≠ "") :
    (∀ r, env.refsListing.find? (fun x => x.name = env.repoRef) = some r →
      getHashModel env = ([CloneEv.fetchRefsCall], Except.ok r.hash)) ∧
    (env.refsListing.find? (fun x => x.name = env.repoRef) = none →
      env.repoRef.length < 8 →
      selectRefModel env.refsListing env.repoRef = none) ∧
    (∀ r, env.refsListing.find? (fun x => x.name = env.repoRef) = none →
      env.refsListing.find? (fun x => strPfx env.repoRef x.hash) = some r →
      8 ≤ env.repoRef.length →
      getHashModel env = ([CloneEv.fetchRefsCall], Except.ok r.hash)) ∧
    (env.refsListing.find? (fun x => x.name = env.repoRef) = none →
      (env.repoRef.length < 8 ∨
        env.refsListing.find? (fun x => strPfx env.repoRef x.hash) = none) →
      isHex40 env.repoRef = true →
      getHashModel env = ([CloneEv.fetchRefsCall], Except.ok env.repoRef)) ∧
    (env.refsListing.find? (fun x => x.name = env.repoRef) = none →
      (env.repoRef.length < 8 ∨
        env.refsListing.find? (fun x => strPfx env.repoRef x.hash) = none) →
      isHex40 env.repoRef = false →
      getHashModel env =
        ([CloneEv.fetchRefsCall, CloneEv.oldHashCall], Except.ok env.oldHashResult)) := by
  refine ⟨?_, ?_, ?_, ?_, ?_⟩
  · intro r hr
    have hmem : r ∈ env.refsListing := List.mem_of_find?_eq_some hr
    have hhash : r.hash ≠ "" := hne r hmem
    have hsel : selectRefModel env.refsListing env.repoRef = some r.hash := by
      simp only [selectRefModel, hr]
    simp [getHashModel, hok, hhead, hsel, truthy, hhash]
  · intro hfind hlen
    simp [selectRefModel, hfind, hlen]
  · intro r hfind hpfx hlen
    have hmem : r ∈ env.refsListing := List.mem_of_find?_eq_some hpfx
    have hhash : r.hash ≠ "" := hne r hmem
    have hsel : selectRefModel env.refsListing env.repoRef = some r.hash := by
      simp only [selectRefModel, hfind]
      rw [if_neg (by omega), hpfx]
    simp [getHashModel, hok, hhead, hsel, truthy, hhash]
  · intro hfind hor hhex
    have hsel : selectRefModel env.refsListing env.repoRef = none := by
      simp only [selectRefModel, hfind]
      rcases hor with hlen | hpfx
      · rw [if_pos hlen]
      · split
        · rfl
        · rw [hpfx]
    simp [getHashModel, hok, hhead, hsel, truthy, hhex]
  · intro hfind hor hhex
    have hsel : selectRefModel env.refsListing env.repoRef = none := by
      simp only [selectRefModel, hfind]
      rcases hor with hlen | hpfx
      · rw [if_pos hlen]
      · split
        · rfl
        · rw [hpfx]
    simp [getHashModel, hok, hhead, hsel, truthy, hhex]

/-- C10. A non-empty destination listing makes checkDirIsEmpty fail with DEST_NOT_EMPTY and perform no filesystem change when force is unset, and recursively delete the whole destination directory and continue when force is set. -/
theorem c10_dest_not_empty (files : List String) (force : Bool) (hne : files ≠ []) :
    (force = false →
      checkDirIsEmptyModel (some files) force = ([], Except.error ErrCode.DEST_NOT_EMPTY)) ∧
    (force = true →
      checkDirIsEmptyModel (some files) force = ([DirEv.rmDest], Except.ok ())) := by
  have hlen : files.length > 0 := List.length_pos.mpr hne
  constructor <;> intro h <;> subst h <;> simp [checkDirIsEmptyModel, hlen]

/-- Witness for c10_dest_not_empty at a concrete listing. -/
theorem c10_dest_not_empty_witness :
    checkDirIsEmptyModel (some ["old.txt"]) false =
      ([], Except.error ErrCode.DEST_NOT_EMPTY) ∧
    checkDirIsEmptyModel (some ["old.txt"]) true = ([DirEv.rmDest], Except.ok ()) :=
  ⟨(c10_dest_not_empty ["old.txt"] false (by decide)).1 rfl,
    (c10_dest_not_empty ["old.txt"] true (by decide)).2 rfl⟩

end Tiged
namespace Tiged

/-- The cache maintenance only writes the access log, the map, and eviction unlinks. -/
theorem updateCache_events_shape (ref hash : String) (cached : List (String × String)) :
    ∀ e ∈ (updateCacheModel ref hash cached).events,
      e = CloneEv.writeAccessLog ∨ e = CloneEv.writeMapJson ∨
        ∃ hsh, e = CloneEv.unlinkTarball hsh := by
  intro e he
  simp only [updateCacheModel] at he
  split at he
  · simp only [List.mem_singleton] at he
    exact Or.inl he
  · simp only [List.mem_append, List.mem_singleton] at he
    rcases he with (he | he) | he
    · exact Or.inl he
    · revert he
      split
      · intro he
        simp only [List.mem_singleton] at he
        exact Or.inr (Or.inr ⟨_, he⟩)
      · intro he
        simp at he
    · exact Or.inr (Or.inl he)

/-- Cache maintenance always writes the access log. -/
theorem updateCache_wal_mem (ref hash : String) (cached : List (String × String)) :
    CloneEv.writeAccessLog ∈ (updateCacheModel ref hash cached).events := by
  simp only [updateCacheModel]
  split <;> simp

/-- Cache maintenance rewrites the map exactly when the cached hash differs from the new one. -/
theorem updateCache_wmj_iff (ref hash : String) (cached : List (String × String)) :
    (CloneEv.writeMapJson ∈ (updateCacheModel ref hash cached).events ↔
      lookupA cached ref ≠ some hash) := by
  simp only [updateCacheModel]
  split
  · simp [*]
  · simp only [List.mem_append, List.mem_singleton]
    simp [*]

/-- Normal form of an offline tar clone: the whole run reduced to its decision tree over the resolved hash, the flags and the tarball state. -/
theorem cloneOffline_form (env : CloneEnv) (hoff : env.offlineMode = true) :
    cloneWithTarModel env =
      (if truthy (offlineHashOf env) then
        if env.disableCache then
          ⟨[CloneEv.mkdirDest], Except.error ErrCode.BAD_REF,
            some ((offlineHashOf env).getD "")⟩
        else if env.tarballExists then
          if env.extractedCount = 0 then
            ⟨[CloneEv.mkdirDest] ++ [CloneEv.statTarball] ++
                (updateCacheModel env.repoRef ((offlineHashOf env).getD "") env.cached).events ++
                [CloneEv.mkdirDest, CloneEv.extractCall],
              Except.error ErrCode.NO_FILES, some ((offlineHashOf env).getD "")⟩
          else
            ⟨[CloneEv.mkdirDest] ++ [CloneEv.statTarball] ++
                (updateCacheModel env.repoRef ((offlineHashOf env).getD "") env.cached).events ++
                [CloneEv.mkdirDest, CloneEv.extractCall],
              Except.ok (), some ((offlineHashOf env).getD "")⟩
        else
          ⟨[CloneEv.mkdirDest, CloneEv.statTarball], Except.error ErrCode.CACHE_MISS,
            some ((offlineHashOf env).getD "")⟩
      else ⟨[CloneEv.mkdirDest], Except.error ErrCode.MISSING_REF, none⟩) := by
  by_cases htr : truthy (offlineHashOf env) = true
  · by_cases hdc : env.disableCache = true
    · simp [cloneWithTarModel, resolvePhase, acquirePhase, hoff, htr, hdc]
    · have hdc2 : env.disableCache = false := Bool.eq_false_iff.mpr hdc
      by_cases hex : env.tarballExists = true
      · by_cases hcnt : env.extractedCount = 0
        · simp [cloneWithTarModel, resolvePhase, acquirePhase, hoff, htr, hdc2, hex, hcnt]
        · simp [cloneWithTarModel, resolvePhase, acquirePhase, hoff, htr, hdc2, hex, hcnt]
      · have hex2 : env.tarballExists = false := Bool.eq_false_iff.mpr hex
        simp [cloneWithTarModel, resolvePhase, acquirePhase, hoff, htr, hdc2, hex2]
  · have htr2 : truthy (offlineHashOf env) = false := Bool.eq_false_iff.mpr htr
    simp [cloneWithTarModel, resolvePhase, hoff, htr2]

/-- An offline clone only creates directories, stats the tarball, extracts and maintains the cache index; it never lists remote refs, downloads, or runs the historical lookup. -/
theorem cloneOffline_no_network (env : CloneEnv) (hoff : env.offlineMode = true) :
    ∀ e ∈ (cloneWithTarModel env).events,
      e = CloneEv.mkdirDest ∨ e = CloneEv.statTarball ∨ e = CloneEv.extractCall ∨
        e = CloneEv.writeAccessLog ∨ e = CloneEv.writeMapJson ∨
        ∃ hsh, e = CloneEv.unlinkTarball hsh := by
  rw [cloneOffline_form env hoff]
  intro e he
  have hm := updateCache_events_shape env.repoRef ((offlineHashOf env).getD "") env.cached e
  split_ifs at he <;>
    simp only [List.mem_append, List.mem_cons, List.mem_singleton,
      List.not_mem_nil, or_false, false_or] at he <;>
    tauto

end Tiged
namespace Tiged

/-- C5 (amended). Offline hash resolution performs no network call (no ref listing, no download, no historical lookup); a full 40-hex ref is used directly as the hash; a ref absent from the cache index fails with MISSING_REF; and, when caching is not disabled, a missing tarball fails with CACHE_MISS.  The CACHE_MISS clause does not extend to cache-disabled runs, which fail with BAD_REF before the tarball check. -/
theorem c5_offline_resolution (env : CloneEnv) (hoff : env.offlineMode = true) :
    (CloneEv.fetchRefsCall ∉ (cloneWithTarModel env).events ∧
      CloneEv.downloadCall ∉ (cloneWithTarModel env).events ∧
      CloneEv.oldHashCall ∉ (cloneWithTarModel env).events) ∧
    (isHex40 env.repoRef = true → (cloneWithTarModel env).usedHash = some env.repoRef) ∧
    (isHex40 env.repoRef = false → lookupA env.cached env.repoRef = none →
      (cloneWithTarModel env).result = Except.error ErrCode.MISSING_REF) ∧
    (truthy (offlineHashOf env) = true → env.disableCache = false →
      env.tarballExists = false →
      (cloneWithTarModel env).result = Except.error ErrCode.CACHE_MISS) := by
  refine ⟨⟨?_, ?_, ?_⟩, ?_, ?_, ?_⟩
  · intro h
    rcases cloneOffline_no_network env hoff _ h with h1 | h1 | h1 | h1 | h1 | ⟨hsh, h1⟩ <;>
      cases h1
  · intro h
    rcases cloneOffline_no_network env hoff _ h with h1 | h1 | h1 | h1 | h1 | ⟨hsh, h1⟩ <;>
      cases h1
  · intro h
    rcases cloneOffline_no_network env hoff _ h with h1 | h1 | h1 | h1 | h1 | ⟨hsh, h1⟩ <;>
      cases h1
  · intro hhex
    have hne : env.repoRef ≠ "" := by
      intro h0
      rw [h0] at hhex
      simp [isHex40] at hhex
    have hofl : offlineHashOf env = some env.repoRef := by simp [offlineHashOf, hhex]
    have htr : truthy (offlineHashOf env) = true := by simp [hofl, truthy, hne]
    rw [cloneOffline_form env hoff]
    rw [htr]
    simp only [if_true]
    split_ifs <;> simp [hofl]
  · intro hhex hlook
    have hofl : offlineHashOf env = none := by simp [offlineHashOf, hhex, hlook]
    rw [cloneOffline_form env hoff]
    simp [hofl, truthy]
  · intro htr hdc hex
    rw [cloneOffline_form env hoff]
    rw [htr]
    simp [hdc, hex]

/-- C5 counterexample. In offline mode with caching disabled and the tarball missing, the run fails with BAD_REF, not with the CACHE_MISS that C5 as stated requires whenever the expected tarball file does not exist. -/
theorem c5_counterexample :
    (cloneWithTarModel ⟨true, true, "aaaaaaaaaaaaaaaaaaaaaaaaaaaaaaaaaaaaaaaa", [],
        false, true, [], "", true, 1⟩).result = Except.error ErrCode.BAD_REF ∧
    ErrCode.BAD_REF ≠ ErrCode.CACHE_MISS :=
  ⟨rfl, by decide⟩

/-- Witness for c5_offline_resolution at a concrete offline environment. -/
theorem c5_offline_resolution_witness :
    (cloneWithTarModel ⟨true, false, "dev", [], false, true, [], "", true, 1⟩).result =
      Except.error ErrCode.MISSING_REF ∧
    CloneEv.fetchRefsCall ∉
      (cloneWithTarModel ⟨true, false, "dev", [], false, true, [], "", true, 1⟩).events := by
  have h := c5_offline_resolution ⟨true, false, "dev", [], false, true, [], "", true, 1⟩ rfl
  exact ⟨h.2.2.1 (by decide) (by decide), h.1.1⟩

/-- C9 (amended). With offlineMode and disableCache both set, no tarball stat, download or extraction is ever performed; when a hash is resolvable offline the run fails with BAD_REF, and when it is not the run fails with MISSING_REF first.  The MISSING_REF case amends the claim that every such run fails with BAD_REF. -/
theorem c9_flag_conflict (env : CloneEnv) (hoff : env.offlineMode = true)
    (hdc : env.disableCache = true) :
    (CloneEv.statTarball ∉ (cloneWithTarModel env).events ∧
      CloneEv.downloadCall ∉ (cloneWithTarModel env).events ∧
      CloneEv.extractCall ∉ (cloneWithTarModel env).events) ∧
    (truthy (offlineHashOf env) = true →
      (cloneWithTarModel env).result = Except.error ErrCode.BAD_REF) ∧
    (truthy (offlineHashOf env) = false →
      (cloneWithTarModel env).result = Except.error ErrCode.MISSING_REF) := by
  rw [cloneOffline_form env hoff]
  by_cases htr : truthy (offlineHashOf env) = true
  · rw [htr]
    simp [hdc, htr]
  · have htr2 : truthy (offlineHashOf env) = false := Bool.eq_false_iff.mpr htr
    rw [htr2]
    simp [htr2]

/-- C9 counterexample. With both flags set but a ref that offline resolution cannot turn into a hash, the run fails with MISSING_REF, not the BAD_REF that C9 as stated requires for every such run. -/
theorem c9_counterexample :
    (cloneWithTarModel ⟨true, true, "main", [], false, true, [], "", true, 1⟩).result =
      Except.error ErrCode.MISSING_REF ∧
    ErrCode.MISSING_REF ≠ ErrCode.BAD_REF :=
  ⟨rfl, by decide⟩

/-- Witness for c9_flag_conflict at a concrete environment with a resolvable hash. -/
theorem c9_flag_conflict_witness :
    (cloneWithTarModel ⟨true, true, "aaaaaaaaaaaaaaaaaaaaaaaaaaaaaaaaaaaaaaaa", [],
        true, true, [], "", true, 1⟩).result = Except.error ErrCode.BAD_REF ∧
    CloneEv.statTarball ∉
      (cloneWithTarModel ⟨true, true, "aaaaaaaaaaaaaaaaaaaaaaaaaaaaaaaaaaaaaaaa", [],
        true, true, [], "", true, 1⟩).events := by
  have h := c9_flag_conflict ⟨true, true, "aaaaaaaaaaaaaaaaaaaaaaaaaaaaaaaaaaaaaaaa", [],
    true, true, [], "", true, 1⟩ rfl rfl
  exact ⟨h.2.1 (by decide), h.1.1⟩

end Tiged
namespace Tiged

/-- C6 (amended). In offline mode the cache index is not read-only: the access log is written exactly when the run reaches cache maintenance (hash resolved, caching enabled, tarball present), and map.json is rewritten exactly when additionally the ref is itself a full 40-hex hash whose cache entry is absent or different; in every other offline run map.json is untouched. -/
theorem c6_offline_index_writes (env : CloneEnv) (hoff : env.offlineMode = true) :
    (CloneEv.writeAccessLog ∈ (cloneWithTarModel env).events ↔
      truthy (offlineHashOf env) = true ∧ env.disableCache = false ∧
        env.tarballExists = true) ∧
    (CloneEv.writeMapJson ∈ (cloneWithTarModel env).events ↔
      truthy (offlineHashOf env) = true ∧ env.disableCache = false ∧
        env.tarballExists = true ∧ isHex40 env.repoRef = true ∧
        lookupA env.cached env.repoRef ≠ some env.repoRef) := by
  rw [cloneOffline_form env hoff]
  by_cases htr : truthy (offlineHashOf env) = true
  · by_cases hdc : env.disableCache = true
    · simp only [htr, if_true, hdc]
      constructor <;> simp [hdc]
    · have hdc2 : env.disableCache = false := Bool.eq_false_iff.mpr hdc
      by_cases hex : env.tarballExists = true
      · have hwal := updateCache_wal_mem env.repoRef ((offlineHashOf env).getD "") env.cached
        have hwaliff : CloneEv.writeAccessLog ∈
            [CloneEv.mkdirDest] ++ [CloneEv.statTarball] ++
              (updateCacheModel env.repoRef ((offlineHashOf env).getD "") env.cached).events ++
              [CloneEv.mkdirDest, CloneEv.extractCall] ↔
            (truthy (offlineHashOf env) = true ∧ env.disableCache = false ∧
              env.tarballExists = true) := by
          simp [htr, hdc2, hex, hwal]
        have hwmjiff : CloneEv.writeMapJson ∈
            [CloneEv.mkdirDest] ++ [CloneEv.statTarball] ++
              (updateCacheModel env.repoRef ((offlineHashOf env).getD "") env.cached).events ++
              [CloneEv.mkdirDest, CloneEv.extractCall] ↔
            (truthy (offlineHashOf env) = true ∧ env.disableCache = false ∧
              env.tarballExists = true ∧ isHex40 env.repoRef = true ∧
              lookupA env.cached env.repoRef ≠ some env.repoRef) := by
          by_cases hhex : isHex40 env.repoRef = true
          · have hofl : offlineHashOf env = some env.repoRef := by
              simp [offlineHashOf, hhex]
            have hwmjX := updateCache_wmj_iff env.repoRef env.repoRef env.cached
            have hne : env.repoRef ≠ "" := by
              intro h0
              rw [h0] at hhex
              simp [isHex40] at hhex
            simp only [List.mem_append, List.mem_cons, List.mem_singleton, hofl,
              Option.getD_some]
            simp [hwmjX, htr, hdc2, hex, hhex, hofl, truthy, hne]
          · have hhex2 : isHex40 env.repoRef = false := Bool.eq_false_iff.mpr hhex
            have hlook : ∃ hsh, lookupA env.cached env.repoRef = some hsh ∧ hsh ≠ "" := by
              have hofl0 : offlineHashOf env = lookupA env.cached env.repoRef := by
                simp [offlineHashOf, hhex2]
              have htr0 := htr
              rw [hofl0] at htr0
              cases hl : lookupA env.cached env.repoRef with
              | none => rw [hl] at htr0; simp [truthy] at htr0
              | some hsh =>
                refine ⟨hsh, rfl, ?_⟩
                rw [hl] at htr0
                simpa [truthy] using htr0
            obtain ⟨hsh, hl, hneq⟩ := hlook
            have hofl : offlineHashOf env = some hsh := by
              simp [offlineHashOf, hhex2, hl]
            have hwmjX := updateCache_wmj_iff env.repoRef hsh env.cached
            simp only [List.mem_append, List.mem_cons, List.mem_singleton, hofl,
              Option.getD_some]
            simp [hwmjX, hl, hhex2]
        by_cases hcnt : env.extractedCount = 0
        · simp only [htr, if_true, hdc2, Bool.false_eq_true, if_false, hex, hcnt]
          constructor
          · simpa [htr, hdc2, hex] using hwaliff
          · simpa [htr, hdc2, hex] using hwmjiff
        · simp only [htr, if_true, hdc2, Bool.false_eq_true, if_false, hex, hcnt]
          constructor
          · simpa [htr, hdc2, hex] using hwaliff
          · simpa [htr, hdc2, hex] using hwmjiff
      · have hex2 : env.tarballExists = false := Bool.eq_false_iff.mpr hex
        simp only [htr, if_true, hdc2, Bool.false_eq_true, if_false, hex2]
        constructor <;> simp [hex2]
  · have htr2 : truthy (offlineHashOf env) = false := Bool.eq_false_iff.mpr htr
    simp only [htr2, Bool.false_eq_true, if_false]
    constructor <;> simp [htr2]

/-- C6 counterexample. A successful offline clone writes the access log, contradicting C6 as stated, which demands that offline mode leaves map.json and access.json unchanged. -/
theorem c6_counterexample :
    CloneEv.writeAccessLog ∈
      (cloneWithTarModel ⟨true, false, "dev",
        [("dev", "eeeeeeeeeeeeeeeeeeeeeeeeeeeeeeeeeeeeeeee")], true, true, [], "", true,
        1⟩).events ∧
    (cloneWithTarModel ⟨true, false, "dev",
        [("dev", "eeeeeeeeeeeeeeeeeeeeeeeeeeeeeeeeeeeeeeee")], true, true, [], "", true,
        1⟩).result = Except.ok () :=
  ⟨by decide, rfl⟩

/-- Witness for c6_offline_index_writes at a concrete offline environment. -/
theorem c6_offline_index_writes_witness :
    CloneEv.writeAccessLog ∈
      (cloneWithTarModel ⟨true, false, "dev",
        [("dev", "eeeeeeeeeeeeeeeeeeeeeeeeeeeeeeeeeeeeeeee")], true, true, [], "", true,
        1⟩).events ∧
    CloneEv.writeMapJson ∉
      (cloneWithTarModel ⟨true, false, "dev",
        [("dev", "eeeeeeeeeeeeeeeeeeeeeeeeeeeeeeeeeeeeeeee")], true, true, [], "", true,
        1⟩).events := by
  have h := c6_offline_index_writes ⟨true, false, "dev",
    [("dev", "eeeeeeeeeeeeeeeeeeeeeeeeeeeeeeeeeeeeeeee")], true, true, [], "", true, 1⟩ rfl
  constructor
  · exact h.1.mpr ⟨by decide, rfl, rfl⟩
  · intro hmem
    exact absurd (h.2.mp hmem).2.2.2.1 (by decide)

end Tiged
namespace Tiged

/-- Witness for c7_ref_selection_order: an exact name match, a direct full-hash acceptance, and a last-resort historical lookup at concrete listings. -/
theorem c7_ref_selection_order_witness :
    getHashModel ⟨false, false, "main", [], false, true,
        [⟨"branch", "dev", "bbbbbbbbbbbbbbbbbbbbbbbbbbbbbbbbbbbbbbbb"⟩,
          ⟨"branch", "main", "aaaaaaaaaaaaaaaaaaaaaaaaaaaaaaaaaaaaaaaa"⟩],
        "oldhash", true, 1⟩ =
      ([CloneEv.fetchRefsCall], Except.ok "aaaaaaaaaaaaaaaaaaaaaaaaaaaaaaaaaaaaaaaa") ∧
    getHashModel ⟨false, false, "cccccccccccccccccccccccccccccccccccccccc", [], false, true,
        [⟨"branch", "dev", "bbbbbbbbbbbbbbbbbbbbbbbbbbbbbbbbbbbbbbbb"⟩],
        "oldhash", true, 1⟩ =
      ([CloneEv.fetchRefsCall], Except.ok "cccccccccccccccccccccccccccccccccccccccc") ∧
    getHashModel ⟨false, false, "feature", [], false, true,
        [⟨"branch", "dev", "bbbbbbbbbbbbbbbbbbbbbbbbbbbbbbbbbbbbbbbb"⟩],
        "oldhash", true, 1⟩ =
      ([CloneEv.fetchRefsCall, CloneEv.oldHashCall], Except.ok "oldhash") := by
  refine ⟨?_, ?_, ?_⟩
  · exact (c7_ref_selection_order _ rfl (by decide) (by decide)).1
      ⟨"branch", "main", "aaaaaaaaaaaaaaaaaaaaaaaaaaaaaaaaaaaaaaaa"⟩ (by decide)
  · exact (c7_ref_selection_order _ rfl (by decide) (by decide)).2.2.2.1
      (by decide) (Or.inr (by decide)) (by decide)
  · exact (c7_ref_selection_order _ rfl (by decide) (by decide)).2.2.2.2
      (by decide) (Or.inl (by decide)) (by decide)

end Tiged
namespace Tiged

/-- The unconsumed rest of the subpath group is a sublist of its input. -/
theorem subPathFuel_rest_sublist (fuel : Nat) :
    ∀ cs : List Char, List.Sublist (subPathFuel fuel cs).2 cs := by
  induction fuel with
  | zero => intro cs; simp [subPathFuel]
  | succ fuel ih =>
    intro cs
    cases cs with
    | nil => simp [subPathFuel]
    | cons c rest =>
      simp only [subPathFuel]
      split
      · split
        · simp
        · have h1 := ih (rest.dropWhile nameChar)
          have h2 : List.Sublist (rest.dropWhile nameChar) rest :=
            List.dropWhile_sublist nameChar
          cases hsp : subPathFuel fuel (rest.dropWhile nameChar) with
          | mk more rest2 =>
            rw [hsp] at h1
            exact ((h1.trans h2).trans (List.sublist_cons_self c rest))
      · simp

/-- A captured ref implies a hash character at the head of its input. -/
theorem refCapture_hash (r5 : List Char) (rs : String)
    (h : refCapture r5 = some rs) : '#' ∈ r5 := by
  cases r5 with
  | nil => simp [refCapture] at h
  | cons c t =>
    by_cases hc : c = '#'
    · subst hc; simp
    · exfalso
      simp only [refCapture] at h
      revert h
      split
      · rename_i heq
        intro _
        injection heq with h1 h2
        exact hc h1
      · intro h
        cases h

/-- Skipping one optional slash yields a sublist. -/
theorem slashSkip_sublist (r4 : List Char) : List.Sublist (slashSkip r4) r4 := by
  cases r4 with
  | nil => simp [slashSkip]
  | cons c t =>
    by_cases hc : c = '/'
    · subst hc
      simp only [slashSkip]
      exact List.sublist_cons_self '/' t
    · have : slashSkip (c :: t) = c :: t := by
        simp only [slashSkip]
        split
        · rename_i heq
          injection heq with h1 h2
          exact absurd h1 hc
        · rfl
      rw [this]

/-- A match whose ref capture participated contains a hash character. -/
theorem restMatchAt_ref_hash (cs : List Char) (rm : RestMatch) (rs : String)
    (h : restMatchAt cs = some rm) (hr : rm.ref = some rs) : '#' ∈ cs := by
  simp only [restMatchAt] at h
  split at h
  · exact absurd h (by simp)
  · revert h
    split
    · rename_i r1eq
      intro h
      split at h
      · exact absurd h (by simp)
      · injection h with h2
        subst h2
        simp only at hr
        rename_i r2 _
        have hmem : '#' ∈ slashSkip (subPathRun (r2.dropWhile nameChar)).2 :=
          refCapture_hash _ _ hr
        have hs1 : List.Sublist (slashSkip (subPathRun (r2.dropWhile nameChar)).2)
            (subPathRun (r2.dropWhile nameChar)).2 := slashSkip_sublist _
        have hs2 : List.Sublist (subPathRun (r2.dropWhile nameChar)).2
            (r2.dropWhile nameChar) := subPathFuel_rest_sublist _ _
        have hs3 : List.Sublist (r2.dropWhile nameChar) r2 :=
          List.dropWhile_sublist nameChar
        have hs4 : List.Sublist r2 (cs.dropWhile userChar) := by
          rw [r1eq]
          exact List.sublist_cons_self '/' r2
        have hs5 : List.Sublist (cs.dropWhile userChar) cs :=
          List.dropWhile_sublist userChar
        exact hs5.mem (hs4.mem (hs3.mem (hs2.mem (hs1.mem hmem))))
    · intro h
      exact absurd h (by simp)

end Tiged
namespace Tiged

/-- The rest of the https host alternative is a sublist of its input. -/
theorem alt1At_rest_sublist (l : List Char) (s : String) (r : List Char)
    (h : alt1At l = some (s, r)) : List.Sublist r l := by
  simp only [alt1At] at h
  split at h
  · revert h
    split
    · rename_i heq
      intro h
      injection h with h2
      injection h2 with h3 h4
      subst h4
      have h5 : List.Sublist (l.dropWhile notSlashColon) l :=
        List.dropWhile_sublist notSlashColon
      rw [heq] at h5
      exact (List.sublist_cons_self '/' _).trans h5
    · intro h
      exact absurd h (by simp)
  · exact absurd h (by simp)

/-- The rest of the ssh host alternative is a sublist of its input. -/
theorem alt2At_rest_sublist (l : List Char) (s : String) (r : List Char)
    (h : alt2At l = some (s, r)) : List.Sublist r l := by
  simp only [alt2At] at h
  split at h
  · split at h
    · revert h
      have h5 : List.Sublist ((l.drop 4).dropWhile notSlashColon) l :=
        (List.dropWhile_sublist notSlashColon).trans (List.drop_sublist 4 l)
      split
      · rename_i heq
        intro h
        injection h with h2
        injection h2 with h3 h4
        subst h4
        rw [heq] at h5
        exact (List.sublist_cons_self ':' _).trans h5
      · rename_i heq
        intro h
        injection h with h2
        injection h2 with h3 h4
        subst h4
        rw [heq] at h5
        exact (List.sublist_cons_self '/' _).trans h5
      · intro h
        exact absurd h (by simp)
    · exact absurd h (by simp)
  · exact absurd h (by simp)

/-- Membership in a four-part append splits into the four parts. -/
theorem mem_append4 {A B C D : List (String × List Char)} {x : String × List Char}
    (h : x ∈ A ++ B ++ C ++ D) : x ∈ A ∨ x ∈ B ∨ x ∈ C ∨ x ∈ D := by
  simp only [List.mem_append] at h
  tauto

/-- Every host-prefix candidate leaves a sublist of the input to the rest of the pattern. -/
theorem hostCands_rest_sublist (cs : List Char) :
    ∀ pr ∈ hostCands cs, List.Sublist pr.2 cs := by
  intro pr hpr
  simp only [hostCands] at hpr
  rcases List.mem_append.1 hpr with h1 | h2
  · obtain ⟨sc, hsc, hf⟩ := List.mem_map.1 h1
    have hsub : List.Sublist sc.2 cs := by
      rcases mem_append4 hsc with hsc | hsc | hsc | hsc
      · revert hsc
        split
        · intro hsc
          rw [Option.mem_toList, Option.mem_def] at hsc
          exact (alt1At_rest_sublist _ sc.1 sc.2 hsc).trans (List.drop_sublist 8 cs)
        · intro hsc
          simp at hsc
      · rw [Option.mem_toList, Option.mem_def] at hsc
        exact alt1At_rest_sublist cs sc.1 sc.2 hsc
      · rw [Option.mem_toList, Option.mem_def] at hsc
        exact alt2At_rest_sublist cs sc.1 sc.2 hsc
      · simp only [alt3Cands, List.mem_filterMap, List.mem_reverse, List.mem_range] at hsc
        obtain ⟨k, hk, hkk⟩ := hsc
        revert hkk
        split
        · intro hkk
          injection hkk with h1
          subst h1
          exact List.drop_sublist (k + 1) cs
        · intro hkk
          cases hkk
    rw [← hf]
    exact hsub
  · rw [List.mem_singleton] at h2
    subst h2
    exact List.Sublist.refl cs

/-- A successful candidate search exhibits the candidate and its rest match. -/
theorem tryCands_some (l : List (Option String × List Char)) (m : SrcMatch)
    (h : tryCands l = some m) :
    ∃ pr ∈ l, ∃ rm, restMatchAt pr.2 = some rm ∧
      m = ⟨pr.1, rm.user, rm.name, rm.sub, rm.ref⟩ := by
  induction l with
  | nil => exact Option.noConfusion h
  | cons pr l ih =>
    rw [tryCands] at h
    revert h
    split
    · rename_i rm hrm
      intro h
      injection h with h2
      exact ⟨pr, List.mem_cons_self pr l, rm, hrm, h2.symm⟩
    · intro h
      obtain ⟨pr2, hpr2, rm, hrm, hm⟩ := ih h
      exact ⟨pr2, List.mem_cons_of_mem pr hpr2, rm, hrm, hm⟩

/-- A specifier without a hash character never produces a ref capture. -/
theorem matchSrc_no_hash (src : String) (m : SrcMatch) (h : matchSrc src = some m)
    (hno : ¬ '#' ∈ src.data) : m.ref = none := by
  obtain ⟨pr, hpr, rm, hrm, rfl⟩ := tryCands_some _ _ h
  cases href : rm.ref with
  | none => rfl
  | some rs =>
    exact absurd
      ((hostCands_rest_sublist src.data pr hpr).mem
        (restMatchAt_ref_hash pr.2 rm rs hrm href)) hno

end Tiged
namespace Tiged

/-- C8 (amended). Specifier parsing is total: it fails with BAD_SRC exactly when the pattern does not match; on success the name field is the matched name token with a single trailing .git stripped, the user field is the matched user token, and the ref field is the matched ref defaulted to HEAD, so the ref is HEAD whenever the specifier contains no hash character at all.  A single .git is stripped, not every trailing .git, which amends the claim that the name never retains a trailing .git suffix. -/
theorem c8_parse_total (src : String) (sg : Bool) (sub : String) :
    (extractRepositoryInfo src sg sub = Except.error ErrCode.BAD_SRC ↔
      matchSrc src = none) ∧
    (∀ m, matchSrc src = some m →
      ∃ repo, extractRepositoryInfo src sg sub = Except.ok repo ∧
        repo.name = stripGitSuffix m.name ∧ repo.ref = m.ref.getD "HEAD" ∧
        repo.user = m.user) ∧
    ((¬ '#' ∈ src.data) → ∀ repo, extractRepositoryInfo src sg sub = Except.ok repo →
      repo.ref = "HEAD") := by
  refine ⟨?_, ?_, ?_⟩
  · cases hm : matchSrc src with
    | none => simp [extractRepositoryInfo, hm]
    | some m => simp [extractRepositoryInfo, hm]
  · intro m hm
    cases hok : extractRepositoryInfo src sg sub with
    | error e =>
      rw [extractRepositoryInfo, hm] at hok
      exact absurd hok (by simp)
    | ok repo =>
      refine ⟨repo, rfl, ?_, ?_, ?_⟩ <;>
        (rw [extractRepositoryInfo, hm] at hok
         injection hok with h2
         rw [← h2])
  · intro hno repo hok
    cases hm : matchSrc src with
    | none =>
      rw [extractRepositoryInfo, hm] at hok
      exact absurd hok (by simp)
    | some m =>
      rw [extractRepositoryInfo, hm] at hok
      injection hok with h2
      have href : m.ref = none := matchSrc_no_hash src m hm hno
      rw [← h2]
      simp [href]

/-- C8 counterexample. Parsing a/b.git.git yields the name b.git, which still ends in .git, contradicting C8 as stated, which demands that the name field never retains a trailing .git suffix. -/
theorem c8_counterexample :
    extractRepositoryInfo "a/b.git.git" false "" =
      Except.ok ⟨"github", "a", "b.git", "HEAD", "https://github.com/a/b.git",
        "git@github.com:a/b.git", ""⟩ ∧
    strSfx ".git" "b.git" = true :=
  ⟨rfl, by decide⟩

/-- Witness for c8_parse_total: a specifier outside the grammar fails with BAD_SRC, and a plain specifier without a ref parses with the default HEAD ref. -/
theorem c8_parse_total_witness :
    extractRepositoryInfo "/x" false "" = Except.error ErrCode.BAD_SRC ∧
    (extractRepositoryInfo "u/r" false "").toOption.map Repo.ref = some "HEAD" := by
  have h1 := (c8_parse_total "/x" false "").1
  have h2 := c8_parse_total "u/r" false ""
  constructor
  · exact h1.mpr (by decide)
  · obtain ⟨repo, hok, hname, href, huser⟩ :=
      h2.2.1 ⟨none, "u", "r", none, none⟩ (by decide)
    rw [hok]
    have hr : repo.ref = "HEAD" := href.trans rfl
    simp [Except.toOption, hr]

end Tiged
